import Mathlib

/-!
Shallow embedding of `backend/app/calc_engine.py` (the structural check
engine of the mep-bracket-tool repository), together with proofs settling
the frozen claims about it.

Modelling conventions:
* Python numbers (int/float) are modelled by exact rationals `ℚ`; the spec
  sanctions reasoning "in exact real arithmetic".
* Python values occurring in snapshot/library dicts are modelled by the
  inductive `PyVal`; dicts are association lists (duplicate keys do not
  occur in JSON-derived data, the first matching key wins).
* Fallible Python code (code that can raise) returns `Except String _`,
  the error string naming the Python exception class.
* `str(x)` on containers and the decimal rendering of floats inside note
  strings are abstracted (no claim depends on them); `float(s)` on strings
  is modelled for plain decimal literals, which is the shape occurring in
  persisted project data.
-/

inductive PyVal : Type where
  | none : PyVal
  | bool : Bool → PyVal
  | num : ℚ → PyVal
  | str : String → PyVal
  | list : List PyVal → PyVal
  | dict : List (PyVal × PyVal) → PyVal

/-- Python truthiness (`bool(x)`). -/
def pyTruthy : PyVal → Bool
  | .none => false
  | .bool b => b
  | .num q => decide (q ≠ 0)
  | .str s => decide (s ≠ "")
  | .list xs => !xs.isEmpty
  | .dict kvs => !kvs.isEmpty

/-- Python `a or b`. -/
def pyOr (a b : PyVal) : PyVal := if pyTruthy a then a else b

/-- Does a dict key equal the query string `s` under Python `==`? -/
def keyMatchesStr (k : PyVal) (s : String) : Bool :=
  match k with
  | .str t => t == s
  | _ => false

/-- Does a dict key equal the query integer `n` under Python `==`?
(`True == 1` and `False == 0` in Python, bool being a subclass of int.) -/
def keyMatchesInt (k : PyVal) (n : ℤ) : Bool :=
  match k with
  | .num q => decide (q = (n : ℚ))
  | .bool b => decide ((if b then (1 : ℚ) else 0) = (n : ℚ))
  | _ => false

/-- First value bound to string key `s` in an association list, if any. -/
def kvFindStr (kvs : List (PyVal × PyVal)) (s : String) : Option PyVal :=
  (kvs.find? (fun kv => keyMatchesStr kv.1 s)).map (·.2)

/-- First value bound to integer key `n` in an association list, if any. -/
def kvFindInt (kvs : List (PyVal × PyVal)) (n : ℤ) : Option PyVal :=
  (kvs.find? (fun kv => keyMatchesInt kv.1 n)).map (·.2)

/-- Python `d.get(s)` on a dict known to be a dict: `None` when absent. -/
def pyGetKV (kvs : List (PyVal × PyVal)) (s : String) : PyVal :=
  (kvFindStr kvs s).getD .none

/-- Python `v.get(s)` where `v` may not be a dict (`AttributeError` then). -/
def pyDictGet (v : PyVal) (s : String) : Except String PyVal :=
  match v with
  | .dict kvs => .ok (pyGetKV kvs s)
  | _ => .error "AttributeError"

/-- `isinstance(v, (int, float))`; Python bools are ints. -/
def isNumLike : PyVal → Bool
  | .num _ => true
  | .bool _ => true
  | _ => false

/-- Numeric value of an int/float/bool `PyVal`. -/
def toQ : PyVal → ℚ
  | .num q => q
  | .bool b => if b then 1 else 0
  | _ => 0

def digitVal (c : Char) : Option ℕ :=
  if '0' ≤ c ∧ c ≤ '9' then some (c.toNat - 48) else none

/-- Read a maximal run of decimal digits: value, digit count, rest. -/
def readDigits : List Char → ℕ → ℕ → ℕ × ℕ × List Char
  | [], acc, n => (acc, n, [])
  | c :: cs, acc, n =>
      match digitVal c with
      | some d => readDigits cs (acc * 10 + d) (n + 1)
      | Option.none => (acc, n, c :: cs)

/-- `float(s)` for a plain decimal literal `[+-]digits[.digits]`.
(Python accepts further forms — exponents, inf/nan, surrounding blanks —
which do not occur in this engine's persisted data and are not modelled.) -/
def strToRat (s : String) : Option ℚ :=
  let cs := s.toList
  let (sign, cs) : ℚ × List Char :=
    match cs with
    | '-' :: t => (-1, t)
    | '+' :: t => (1, t)
    | t => (1, t)
  let (ip, n1, r1) := readDigits cs 0 0
  match r1 with
  | [] => if n1 = 0 then Option.none else some (sign * ip)
  | '.' :: r2 =>
      let (fp, n2, r3) := readDigits r2 0 0
      if r3 = [] ∧ 0 < n1 + n2 then
        some (sign * ((ip : ℚ) + (fp : ℚ) / (10 : ℚ) ^ n2))
      else Option.none
  | _ => Option.none

/-- `int(s)` for a plain integer literal. -/
def strToInt (s : String) : Option ℤ :=
  let cs := s.toList
  let (sign, cs) : ℤ × List Char :=
    match cs with
    | '-' :: t => (-1, t)
    | '+' :: t => (1, t)
    | t => (1, t)
  let (ip, n1, r1) := readDigits cs 0 0
  if r1 = [] ∧ 0 < n1 then some (sign * ip) else Option.none

/-- Python `float(v)`: numbers pass through, strings are parsed,
anything else raises `TypeError`. -/
def pyFloat : PyVal → Except String ℚ
  | .num q => .ok q
  | .bool b => .ok (if b then 1 else 0)
  | .str s =>
      match strToRat s with
      | some q => .ok q
      | Option.none => .error "ValueError"
  | _ => .error "TypeError"

/-- `float(v)` inside a `try/except` that skips on failure. -/
def pyFloatOpt (v : PyVal) : Option ℚ := (pyFloat v).toOption

/-- Truncation toward zero, as Python `int()` on a float. -/
def ratTrunc (q : ℚ) : ℤ := if 0 ≤ q then ⌊q⌋ else -⌊-q⌋

/-- Python `int(v)`. -/
def pyInt : PyVal → Except String ℤ
  | .num q => .ok (ratTrunc q)
  | .bool b => .ok (if b then 1 else 0)
  | .str s =>
      match strToInt s with
      | some n => .ok n
      | Option.none => .error "ValueError"
  | _ => .error "TypeError"

/-- Decimal-ish rendering of a rational, standing in for Python float
formatting inside strings (no claim depends on its exact shape). -/
def ratStr (q : ℚ) : String :=
  toString q.num ++ (if q.den == 1 then "" else "/" ++ toString q.den)

/-- Python `str(v)`; the rendering of containers is abstracted. -/
def pyStrOf : PyVal → String
  | .none => "None"
  | .bool b => if b then "True" else "False"
  | .num q => ratStr q
  | .str s => s
  | .list _ => "<list>"
  | .dict _ => "<dict>"

/-- `startsWithChars needle hay`: is `needle` an initial segment of `hay`? -/
def startsWithChars : List Char → List Char → Bool
  | [], _ => true
  | _ :: _, [] => false
  | a :: as, b :: bs => a == b && startsWithChars as bs

/-- `containsChars needle hay`: does `needle` occur inside `hay`? -/
def containsChars (needle : List Char) : List Char → Bool
  | [] => needle.isEmpty
  | c :: tl => startsWithChars needle (c :: tl) || containsChars needle tl

/-- Python `needle in hay` for strings. -/
def containsSub (hay needle : String) : Bool :=
  containsChars needle.toList hay.toList

/-- Python `str.upper()` (ASCII, character by character). -/
def pyUpper (s : String) : String := ⟨s.data.map Char.toUpper⟩

/-- `_fy_from_grade`: substring lookup of the yield stress (MPa). -/
def fyFromGrade (grade : String) : ℚ :=
  let g := pyUpper (if grade == "" then "" else grade)
  if containsSub g "355" then 355
  else if containsSub g "275" then 275
  else if containsSub g "235" then 235
  else 235

/-- A normalized point load (the engine's internal
`{"N": …, "x_mm": …, "label": …}` record). -/
structure Load : Type where
  N : ℚ
  x : ℚ
  label : String
deriving DecidableEq

/-- `len(arr) > 0 and isinstance(arr[0], (int, float))`. -/
def headIsNum : List PyVal → Bool
  | [] => false
  | v :: _ => isNumLike v

/-- One iteration of the v3 structured-record loop in `_parse_tier_loads`:
`none` when the entry is skipped (non-dict, conversion failure inside the
`try`, or non-positive magnitude). -/
def v3Entry (span : ℚ) : PyVal → Option Load
  | .dict d =>
      match pyFloatOpt ((kvFindStr d "N").getD (.num 0)),
            pyFloatOpt ((kvFindStr d "x_mm").getD (.num (span / 2))) with
      | some P, some x0 =>
          let x := max 0 (min span x0)
          if P ≤ 0 then Option.none
          else some ⟨P, x, pyStrOf ((kvFindStr d "label").getD (.str ""))⟩
      | _, _ => Option.none
  | _ => Option.none

/-- The shape dispatch of `_parse_tier_loads` once the raw tier array has
been resolved: legacy bare numbers are auto-positioned, structured records
go through `v3Entry`, non-lists yield `[]`. -/
def parseArr (arrv : PyVal) (span : ℚ) : List Load :=
  match arrv with
  | .list items =>
      if headIsNum items then
        let nums := items.filterMap
          (fun v => if isNumLike v then some (toQ v) else Option.none)
        if nums.isEmpty then []
        else nums.enum.map (fun p =>
          ⟨p.2, span * ((p.1 : ℚ) + 1) / ((nums.length : ℚ) + 1),
           "Load " ++ toString (p.1 + 1)⟩)
      else items.filterMap (v3Entry span)
  | _ => []

/-- Resolution of `loads[tier]` from the snapshot: `snapshot.get("loads")
or {}`, then lookup by int key, falling back to the string key.
Raises (`AttributeError`) when `loads` is a truthy non-dict. -/
def resolveTierArr (snapshot : List (PyVal × PyVal)) (t : ℕ) :
    Except String PyVal :=
  match pyOr (pyGetKV snapshot "loads") (.dict []) with
  | .dict kvs =>
      match kvFindInt kvs (t : ℤ) with
      | some PyVal.none => .ok ((kvFindStr kvs (toString t)).getD (.list []))
      | some v => .ok v
      | Option.none => .ok ((kvFindStr kvs (toString t)).getD (.list []))
  | _ => .error "AttributeError"

/-- `_parse_tier_loads`. -/
def parseTierLoads (snapshot : List (PyVal × PyVal)) (span : ℚ) (t : ℕ) :
    Except String (List Load) := do
  let arrv ← resolveTierArr snapshot t
  pure (parseArr arrv span)

/-! ## Beam statics (`_reactions_for_point_loads`, `_moment_at_x`,
`_max_moment`) -/

/-- `_reactions_for_point_loads`: simply-supported reactions. -/
def reactionsPL (L : ℚ) (loads : List Load) : ℚ × ℚ :=
  if L ≤ 0 then (0, 0)
  else loads.foldl
    (fun R it => (R.1 + it.N * (L - it.x) / L, R.2 + it.N * it.x / L))
    (0, 0)

/-- `_moment_at_x`: bending moment at `x`, left support as origin. -/
def momentAtX (L : ℚ) (loads : List Load) (x : ℚ) : ℚ :=
  if L ≤ 0 then 0
  else loads.foldl
    (fun M it => if it.x ≤ x then M - it.N * (x - it.x) else M)
    ((reactionsPL L loads).1 * x)

/-- Insert into a strictly sorted list, dropping duplicates. -/
def insertSorted (x : ℚ) : List ℚ → List ℚ
  | [] => [x]
  | y :: t =>
      if x < y then x :: y :: t
      else if x = y then y :: t
      else y :: insertSorted x t

/-- Python `sorted(set(l))`: strictly increasing list of the distinct
values. -/
def sortedDedup (l : List ℚ) : List ℚ := l.foldr insertSorted []

/-- Midpoints of consecutive entries (`0.5*(pts[i]+pts[i+1])`). -/
def midList : List ℚ → List ℚ
  | [] => []
  | [_] => []
  | a :: b :: t => (a + b) / 2 :: midList (b :: t)

/-- `_max_moment`: maximum absolute moment sampled at the clamped load
positions, the ends, and the midpoints between consecutive candidates. -/
def maxMoment (L : ℚ) (loads : List Load) : ℚ :=
  let pts := sortedDedup
    (([0, L] ++ loads.map (·.x)).map (fun p => max 0 (min L p)))
  let m1 := pts.foldl (fun m p => max m |momentAtX L loads p|) 0
  (midList pts).foldl (fun m p => max m |momentAtX L loads p|) m1

/-! ## Deflection model (`_deflection_at_x_point_load`,
`_max_deflection`) -/

/-- `_deflection_at_x_point_load`: closed-form deflection at `x` of a
simply supported beam under a point load `P` at `a`. -/
def deflAt (P a L E I x : ℚ) : ℚ :=
  if L ≤ 0 ∨ E ≤ 0 ∨ I ≤ 0 then 0
  else if x ≤ a then
    P * (L - a) * x * (L * L - (L - a) * (L - a) - x * x) / (6 * L * E * I)
  else
    P * a * (L - x) * (L * L - a * a - (L - x) * (L - x)) / (6 * L * E * I)

/-- The sampling step of `_max_deflection`: `clamp(L/120, 10, 50)` mm. -/
def deflStep (L : ℚ) : ℚ := max 10 (min 50 (L / 120))

/-- The sample abscissae of `_max_deflection`: `x = k*step` while
`x ≤ L + 1e-6` (the while-loop accumulates exactly in this model). -/
def samplePts (L : ℚ) : List ℚ :=
  let kmax := ⌊(L + 1 / 1000000) / deflStep L⌋₊
  (List.range (kmax + 1)).map (fun k : ℕ => (k : ℚ) * deflStep L)

/-- Superposed deflection of all loads at `x`. -/
def deflSum (loads : List Load) (L E I x : ℚ) : ℚ :=
  loads.foldl (fun d it => d + deflAt it.N it.x L E I x) 0

/-- `_max_deflection`: maximum absolute sampled deflection. -/
def maxDefl (L : ℚ) (loads : List Load) (E I : ℚ) : ℚ :=
  if L ≤ 0 then 0
  else (samplePts L).foldl (fun m x => max m |deflSum loads L E I x|) 0

/-! ## Check evaluator (`run_checks`) -/

/-- The ordered candidate capacity field names. -/
def capKeys : List String := ["tension_capacity_N", "capacity_N", "tension_N"]

/-- `v in (None, "")`. -/
def isNoneOrEmpty : PyVal → Bool
  | .none => true
  | .str s => s == ""
  | _ => false

/-- The rod/anchor capacity loop over a dict record: for each key in
order, `if k in rec and rec.get(k) not in (None, ""): try float → break,
except → continue`. -/
def capGo (kvs : List (PyVal × PyVal)) : List String → Option ℚ
  | [] => Option.none
  | k :: rest =>
      match kvFindStr kvs k with
      | Option.none => capGo kvs rest
      | some v =>
          if isNoneOrEmpty v then capGo kvs rest
          else
            match pyFloat v with
            | .ok q => some q
            | .error _ => capGo kvs rest

/-- Capacity resolution from a rod/anchor library record (dict case). -/
def capacityFromRecord (kvs : List (PyVal × PyVal)) : Option ℚ :=
  capGo kvs capKeys

/-- Taken from the spec's words, for comparison with the code: "trying an
ordered list of possible capacity field names (first present wins)" — the
first key of `capKeys` present in the record. -/
def specFirstPresentCapacityKey (kvs : List (PyVal × PyVal)) :
    Option String :=
  capKeys.find? (fun k => (kvFindStr kvs k).isSome)

/-- The usable capacity carried by one key, if any: present, not `None`,
not `""`, and convertible by `float`. -/
def keyUsableCap (kvs : List (PyVal × PyVal)) (k : String) : Option ℚ :=
  match kvFindStr kvs k with
  | Option.none => Option.none
  | some v => if isNoneOrEmpty v then Option.none else (pyFloat v).toOption

/-- Capacity extraction from the resolved rod/anchor value, which may not
be a dict (Python `k in v` / `v.get` then behave per type). -/
def extractCap : PyVal → Except String (Option ℚ)
  | .dict kvs => .ok (capacityFromRecord kvs)
  | .list items =>
      if capKeys.any (fun k => items.any (fun it =>
          match it with | .str t => t == k | _ => false)) then
        .error "AttributeError"
      else .ok Option.none
  | .str s =>
      if capKeys.any (fun k => containsSub s k) then .error "AttributeError"
      else .ok Option.none
  | _ => .error "TypeError"

/-- Per-tier analysis results accumulated by the `run_checks` loop. -/
structure TierDatum : Type where
  Rl : ℚ
  Rr : ℚ
  mmax : ℚ
  dmax : ℚ
  tierN : ℚ
deriving DecidableEq

/-- One iteration of the tier loop of `run_checks`. -/
def tierDatum (snapshot : List (PyVal × PyVal)) (span E Ixx : ℚ) (t : ℕ) :
    Except String TierDatum := do
  let loads ← parseTierLoads snapshot span t
  let R := reactionsPL span loads
  pure ⟨R.1, R.2, maxMoment span loads, maxDefl span loads E Ixx,
        (loads.map (·.N)).sum⟩

/-- The per-category verdicts dict (`"PASS"`/`"FAIL"` strings), in the
source's insertion order. -/
structure Checks : Type where
  deflection : String
  bending : String
  rod : String
  anchor : String
deriving DecidableEq

def mkChecks (bendFail deflFail rodFail anchorFail : Bool) : Checks :=
  ⟨if deflFail then "FAIL" else "PASS",
   if bendFail then "FAIL" else "PASS",
   if rodFail then "FAIL" else "PASS",
   if anchorFail then "FAIL" else "PASS"⟩

/-- The governing selection: `"PASS"` unless some check failed, else the
first failing category in the fixed order bending, deflection, rod,
anchor (the for/break loop of the source). -/
def governingOf (bendFail deflFail rodFail anchorFail : Bool) : String :=
  if bendFail || deflFail || rodFail || anchorFail then
    if bendFail then "bending"
    else if deflFail then "deflection"
    else if rodFail then "rod"
    else "anchor"
  else "PASS"

def statusOf (governing : String) : String :=
  if governing == "PASS" then "PASS" else "FAIL"

/-- The echo of the resolved library in the result. -/
structure LibraryUsed : Type where
  profile : PyVal
  rod : PyVal
  washer : PyVal
  anchor : PyVal
  bearing_area_multiplier : ℚ

/-- The engine's output record (`run_checks`'s returned dict); the
tier-keyed dicts are modelled as key/value lists in insertion order. -/
structure CheckResult : Type where
  status : String
  governing_check : String
  total_weight_kg : ℚ
  per_tier_weight_kg : List (String × ℚ)
  rod_min_size : String
  checks : Checks
  notes : List String
  reactions_N : List (String × ℚ × ℚ)
  max_moment_kNm : List (String × ℚ)
  max_deflection_mm : List (String × ℚ)
  deflection_limit_mm : ℚ
  library_used : LibraryUsed

/-- `sigma_allow = 0.6 * fy` (the working-stress placeholder rule). -/
def sigmaAllowOf (grade : String) : ℚ := 3 / 5 * fyFromGrade grade

/-- `defl_limit_mm = span/200 if span > 0 else 0`. -/
def deflLimitOf (span : ℚ) : ℚ := if 0 < span then span / 200 else 0

def totalRlOf (tiers : List TierDatum) : ℚ := (tiers.map (·.Rl)).sum

def totalRrOf (tiers : List TierDatum) : ℚ := (tiers.map (·.Rr)).sum

/-- `total_mmax`: running max of the tier moments, seeded with `0.0`. -/
def totalMOf (tiers : List TierDatum) : ℚ :=
  tiers.foldl (fun m d => max m d.mmax) 0

def totalDOf (tiers : List TierDatum) : ℚ :=
  tiers.foldl (fun m d => max m d.dmax) 0

/-- `rod_force = max(total_Rl, total_Rr)`. -/
def rodForceOf (tiers : List TierDatum) : ℚ :=
  max (totalRlOf tiers) (totalRrOf tiers)

/-- The bending check: `sigma = total_mmax/Zxx` (infinite when
`Zxx ≤ 0`, which always exceeds the allowable). -/
def bendFailOf (Zxx : ℚ) (grade : String) (tiers : List TierDatum) : Bool :=
  if 0 < Zxx then decide (sigmaAllowOf grade < totalMOf tiers / Zxx)
  else true

/-- The deflection check: limit positive and exceeded. -/
def deflFailOf (span : ℚ) (tiers : List TierDatum) : Bool :=
  decide (0 < deflLimitOf span) && decide (deflLimitOf span < totalDOf tiers)

/-- The rod/anchor check: fails only when a capacity was resolved and
the demand exceeds it; skipped (PASS) when no capacity is present. -/
def capFailOf (cap : Option ℚ) (tiers : List TierDatum) : Bool :=
  match cap with
  | some c => decide (c < rodForceOf tiers)
  | Option.none => false

/-- Tier weights in kg: `tier_N/9.81` when positive, else `0.0`. -/
def tierKgsOf (tiers : List TierDatum) : List ℚ :=
  tiers.map (fun d => if 0 < d.tierN then d.tierN / (981 / 100) else 0)

/-- Everything `run_checks` does after all fallible input resolution:
aggregation, the four checks, the governing selection and the result
record. -/
def assembleResult (snapshot : List (PyVal × PyVal)) (span : ℚ)
    (prof rodv washerv anchorv : PyVal) (Zxx : ℚ) (grade : String)
    (tiers : List TierDatum) (rodCap anchorCap : Option ℚ) (bam : ℚ) :
    CheckResult :=
  let bendFail := bendFailOf Zxx grade tiers
  let deflFail := deflFailOf span tiers
  let rodFail := capFailOf rodCap tiers
  let anchorFail := capFailOf anchorCap tiers
  let governing := governingOf bendFail deflFail rodFail anchorFail
  let kgs := tierKgsOf tiers
  { status := statusOf governing
    governing_check := governing
    total_weight_kg := kgs.sum
    per_tier_weight_kg :=
      [("1", kgs.getD 0 0), ("2", kgs.getD 1 0), ("3", kgs.getD 2 0)]
    rod_min_size := pyStrOf (pyOr (pyGetKV snapshot "rod_id") (.str "—"))
    checks := mkChecks bendFail deflFail rodFail anchorFail
    notes :=
      (if bendFail then
        ["Bending stress " ++
          (if 0 < Zxx then ratStr (totalMOf tiers / Zxx) else "inf") ++
          " N/mm2 exceeds allowable " ++ ratStr (sigmaAllowOf grade) ++
          " N/mm2 (rule-of-thumb)."] else []) ++
      (if deflFail then
        ["Deflection " ++ ratStr (totalDOf tiers) ++ " mm exceeds limit " ++
          ratStr (deflLimitOf span) ++ " mm (L/200 placeholder)."] else []) ++
      (if rodFail then
        ["Rod demand " ++ ratStr (rodForceOf tiers) ++
          " N exceeds capacity " ++ ratStr (rodCap.getD 0) ++ " N."]
       else []) ++
      (if anchorFail then
        ["Anchor demand " ++ ratStr (rodForceOf tiers) ++
          " N exceeds capacity " ++ ratStr (anchorCap.getD 0) ++ " N."]
       else [])
    reactions_N :=
      (tiers.enum.map (fun p =>
        ("tier" ++ toString (p.1 + 1), (p.2.Rl, p.2.Rr)))) ++
      [("total", (totalRlOf tiers, totalRrOf tiers))]
    max_moment_kNm :=
      (tiers.enum.map (fun p =>
        ("tier" ++ toString (p.1 + 1), p.2.mmax / 1000000))) ++
      [("total", totalMOf tiers / 1000000)]
    max_deflection_mm :=
      (tiers.enum.map (fun p =>
        ("tier" ++ toString (p.1 + 1), p.2.dmax))) ++
      [("total", totalDOf tiers)]
    deflection_limit_mm := deflLimitOf span
    library_used := ⟨prof, rodv, washerv, anchorv, bam⟩ }

/-- `run_checks(snapshot, library)`. Both arguments are dicts (the
function's documented contract); every conversion that can raise in
Python is a fallible step here, in source order. -/
def runChecks (snapshot library : List (PyVal × PyVal)) :
    Except String CheckResult := do
  let span ← pyFloat (pyOr (pyGetKV snapshot "span_mm") (.num 0))
  let tc0 ← pyInt (pyOr (pyGetKV snapshot "tier_count") (.num 1))
  let tierCount : ℕ := (max 1 (min 3 tc0)).toNat
  let prof := pyOr (pyGetKV library "profile") (.dict [])
  let rodv := pyOr (pyGetKV library "rod") (.dict [])
  let washerv := pyOr (pyGetKV library "washer") (.dict [])
  let anchorv := pyOr (pyGetKV library "anchor") (.dict [])
  let e0 ← pyDictGet prof "E_N_per_mm2"
  let E ← pyFloat (pyOr e0 (.num 200000))
  let i0 ← pyDictGet prof "Ixx_mm4"
  let Ixx ← pyFloat (pyOr i0 (.num 1))
  let z0 ← pyDictGet prof "Zxx_mm3"
  let Zxx ← pyFloat (pyOr z0 (.num 1))
  let g0 ← pyDictGet prof "material_grade"
  let grade := pyStrOf (pyOr g0 (.str "S235"))
  let tiers ← ((List.range tierCount).map (· + 1)).mapM
    (tierDatum snapshot span E Ixx)
  let rodCap ← extractCap rodv
  let anchorCap ← extractCap anchorv
  let bam ← pyFloat (pyOr (pyGetKV library "bearing_area_multiplier") (.num 1))
  pure (assembleResult snapshot span prof rodv washerv anchorv Zxx
    grade tiers rodCap anchorCap bam)

/-! ## Concrete inputs used by counterexamples and witnesses -/

/-- Snapshot whose `span_mm` is a (truthy) list: `float` raises. -/
def cexSpanSnap : List (PyVal × PyVal) := [(.str "span_mm", .list [.num 0])]

/-- Snapshot with a legacy bare-number tier load of magnitude `-5`. -/
def cexLegacySnap : List (PyVal × PyVal) :=
  [(.str "loads", .dict [(.str "1", .list [.num (-5)])])]

/-- Structured tier loads mixing a non-positive and a positive entry. -/
def witStructSnap : List (PyVal × PyVal) :=
  [(.str "loads", .dict [(.str "1", .list
    [.dict [(.str "N", .num (-3))],
     .dict [(.str "N", .num 7), (.str "x_mm", .num 2)]])])]

/-- Span 20 mm, one 5000 N load at midspan, used with an empty library. -/
def witSnapMid : List (PyVal × PyVal) :=
  [(.str "span_mm", .num 20),
   (.str "loads", .dict [(.str "1", .list
     [.dict [(.str "N", .num 5000), (.str "x_mm", .num 10)]])])]

/-- The spec's reference snapshot: span 2000 mm, 5000 N at 1000 mm. -/
def witSnapRef : List (PyVal × PyVal) :=
  [(.str "span_mm", .num 2000),
   (.str "loads", .dict [(.str "1", .list
     [.dict [(.str "N", .num 5000), (.str "x_mm", .num 1000)]])])]

/-- Rod record whose first present capacity key holds `None` while the
second holds a number. -/
def cexRodRecord : List (PyVal × PyVal) :=
  [(.str "tension_capacity_N", PyVal.none), (.str "capacity_N", .num 100)]

/-- Is a resolved tier array legacy bare-number shaped
(`len(arr) > 0 and isinstance(arr[0], (int, float))`)? -/
def legacyShaped : PyVal → Bool
  | .list items => headIsNum items
  | _ => false

/-! ## Generic fold lemmas -/

theorem foldl_max_le {α : Type} (f : α → ℚ) (D : ℚ) :
    ∀ (l : List α) (c : ℚ), c ≤ D → (∀ p ∈ l, f p ≤ D) →
      l.foldl (fun m p => max m (f p)) c ≤ D := by
  intro l
  induction l with
  | nil => intro c hc _; simpa using hc
  | cons a t ih =>
      intro c hc hall
      simp only [List.foldl_cons]
      exact ih _ (max_le hc (hall a (by simp)))
        (fun p hp => hall p (by simp [hp]))

theorem le_foldl_max {α : Type} (f : α → ℚ) :
    ∀ (l : List α) (c : ℚ), c ≤ l.foldl (fun m p => max m (f p)) c := by
  intro l
  induction l with
  | nil => intro c; simp
  | cons a t ih =>
      intro c
      simp only [List.foldl_cons]
      exact le_trans (le_max_left _ _) (ih (max c (f a)))

theorem mem_le_foldl_max {α : Type} (f : α → ℚ) :
    ∀ (l : List α) (c : ℚ) (p : α), p ∈ l →
      f p ≤ l.foldl (fun m p => max m (f p)) c := by
  intro l
  induction l with
  | nil => intro c p hp; cases hp
  | cons a t ih =>
      intro c p hp
      rcases List.mem_cons.mp hp with h | h
      · subst h
        simp only [List.foldl_cons]
        exact le_trans (le_max_right _ _) (le_foldl_max f t _)
      · simp only [List.foldl_cons]
        exact ih _ p h

theorem foldl_max_mono {α : Type} (f g : α → ℚ) :
    ∀ (l : List α) (c c' : ℚ), c ≤ c' → (∀ p ∈ l, f p ≤ g p) →
      l.foldl (fun m p => max m (f p)) c ≤
        l.foldl (fun m p => max m (g p)) c' := by
  intro l
  induction l with
  | nil => intro c c' hc _; simpa using hc
  | cons a t ih =>
      intro c c' hc hall
      simp only [List.foldl_cons]
      exact ih _ _ (max_le_max hc (hall a (by simp)))
        (fun p hp => hall p (by simp [hp]))

theorem foldl_add_eq {α : Type} (f : α → ℚ) :
    ∀ (l : List α) (c : ℚ),
      l.foldl (fun d it => d + f it) c = c + (l.map f).sum := by
  intro l
  induction l with
  | nil => intro c; simp
  | cons a t ih => intro c; simp [List.foldl_cons, ih]; ring

theorem sum_map_sub {α : Type} (f g : α → ℚ) :
    ∀ l : List α, (l.map (fun x => f x - g x)).sum =
      (l.map f).sum - (l.map g).sum := by
  intro l
  induction l with
  | nil => simp
  | cons a t ih => simp [ih]; ring

/-! ## Except-monad inversion -/

theorem exceptBind_ok {α β : Type} {x : Except String α}
    {f : α → Except String β} {r : β}
    (h : x >>= f = .ok r) : ∃ a, x = .ok a ∧ f a = .ok r := by
  cases x with
  | error e => simp [Bind.bind, Except.bind] at h
  | ok a => exact ⟨a, rfl, by simpa [Bind.bind, Except.bind] using h⟩

/-! ## C2: reactions sum to the total load -/

theorem reactionsPL_fold (L : ℚ) :
    ∀ (loads : List Load) (c : ℚ × ℚ),
      loads.foldl (fun R it =>
        (R.1 + it.N * (L - it.x) / L, R.2 + it.N * it.x / L)) c
      = (c.1 + (loads.map (fun it => it.N * (L - it.x) / L)).sum,
         c.2 + (loads.map (fun it => it.N * it.x / L)).sum) := by
  intro loads
  induction loads with
  | nil => intro c; simp
  | cons a t ih =>
      intro c
      simp only [List.foldl_cons, ih, List.map_cons, List.sum_cons]
      simp only [Prod.mk.injEq]
      constructor <;> ring

/-- C2. For every span `L > 0` and every finite list of point loads with
positions in `[0, L]`, the left and right reactions computed by
`_reactions_for_point_loads` sum exactly to the sum of the load
magnitudes. -/
theorem reactions_sum_to_total_load (L : ℚ) (loads : List Load)
    (hL : 0 < L) (_hx : ∀ l ∈ loads, 0 ≤ l.x ∧ l.x ≤ L) :
    (reactionsPL L loads).1 + (reactionsPL L loads).2 =
      (loads.map (·.N)).sum := by
  clear _hx
  unfold reactionsPL
  rw [if_neg (not_le.mpr hL), reactionsPL_fold]
  dsimp only
  induction loads with
  | nil => simp
  | cons a t ih =>
      simp only [List.map_cons, List.sum_cons]
      have ha : a.N * (L - a.x) / L + a.N * a.x / L = a.N := by
        field_simp
        ring
      nlinarith [ih]

/-- Witness for C2 at `L = 2` with loads `3 N @ 1 mm`, `5 N @ 2 mm`. -/
theorem reactions_sum_to_total_load_witness :
    (0:ℚ) < 2 ∧
    (reactionsPL 2 [⟨3, 1, "a"⟩, ⟨5, 2, "b"⟩]).1 +
      (reactionsPL 2 [⟨3, 1, "a"⟩, ⟨5, 2, "b"⟩]).2 =
      (([⟨3, 1, "a"⟩, ⟨5, 2, "b"⟩] : List Load).map (·.N)).sum :=
  ⟨by norm_num,
   reactions_sum_to_total_load 2 [⟨3, 1, "a"⟩, ⟨5, 2, "b"⟩] (by norm_num)
     (by intro l hl; fin_cases hl <;> norm_num)⟩

/-! ## C4: single central point load gives `max_moment = P*L/4` -/

theorem sortedDedup_three (L : ℚ) (hL : 0 < L) :
    sortedDedup [0, L, L / 2] = [0, L / 2, L] := by
  have h1 : ¬ L < L / 2 := by linarith
  have h2 : ¬ L = L / 2 := by intro h; linarith
  have h3 : (0 : ℚ) < L / 2 := by linarith
  have e2 : insertSorted L [L / 2] = [L / 2, L] := by
    simp only [insertSorted, if_neg h1, if_neg h2]
  have e3 : insertSorted 0 [L / 2, L] = [0, L / 2, L] := by
    simp only [insertSorted, if_pos h3]
  calc sortedDedup [0, L, L / 2]
      = insertSorted 0 (insertSorted L (insertSorted (L / 2) [])) := rfl
    _ = [0, L / 2, L] := by rw [show insertSorted (L / 2) ([] : List ℚ) = [L / 2] from rfl, e2, e3]

/-- C4. For every span `L > 0` and a single point load `P > 0` at `L/2`,
`_max_moment` returns exactly `P*L/4`. -/
theorem maxMoment_central_load (L P : ℚ) (lbl : String)
    (hL : 0 < L) (hP : 0 < P) :
    maxMoment L [⟨P, L / 2, lbl⟩] = P * L / 4 := by
  have hRl : (reactionsPL L [⟨P, L / 2, lbl⟩]).1 = P / 2 := by
    simp only [reactionsPL, if_neg (not_le.mpr hL), List.foldl_cons,
      List.foldl_nil]
    field_simp
    ring
  have hM : ∀ x : ℚ, momentAtX L [⟨P, L / 2, lbl⟩] x =
      if L / 2 ≤ x then P / 2 * x - P * (x - L / 2) else P / 2 * x := by
    intro x
    simp only [momentAtX, if_neg (not_le.mpr hL), List.foldl_cons,
      List.foldl_nil, hRl]
  have c0 : max 0 (min L 0) = (0 : ℚ) := by
    rw [min_eq_right hL.le, max_self]
  have cL : max 0 (min L L) = L := by
    rw [min_self, max_eq_right hL.le]
  have cH : max 0 (min L (L / 2)) = L / 2 := by
    rw [min_eq_right (by linarith), max_eq_right (by linarith)]
  have a1 : |momentAtX L [⟨P, L / 2, lbl⟩] 0| = 0 := by
    rw [hM, if_neg (by linarith)]
    simp
  have a2 : |momentAtX L [⟨P, L / 2, lbl⟩] (L / 2)| = P * L / 4 := by
    rw [hM, if_pos le_rfl, abs_of_nonneg (by nlinarith)]
    ring
  have a3 : |momentAtX L [⟨P, L / 2, lbl⟩] L| = 0 := by
    rw [hM, if_pos (by linarith), show P / 2 * L - P * (L - L / 2) = 0 by ring,
      abs_zero]
  have a4 : |momentAtX L [⟨P, L / 2, lbl⟩] ((0 + L / 2) / 2)| = P * L / 8 := by
    rw [hM, if_neg (by linarith), abs_of_nonneg (by nlinarith)]
    ring
  have a5 : |momentAtX L [⟨P, L / 2, lbl⟩] ((L / 2 + L) / 2)| = P * L / 8 := by
    rw [hM, if_pos (by linarith),
      show P / 2 * ((L / 2 + L) / 2) - P * ((L / 2 + L) / 2 - L / 2)
        = P * L / 8 by ring, abs_of_nonneg (by nlinarith)]
  have h04 : (0 : ℚ) ≤ P * L / 4 := by nlinarith
  have h48 : P * L / 8 ≤ P * L / 4 := by nlinarith
  simp only [maxMoment, List.map_cons, List.map_nil, List.cons_append,
    List.nil_append, c0, cL, cH, sortedDedup_three L hL, midList,
    List.foldl_cons, List.foldl_nil]
  rw [a1, a2, a3, a4, a5, max_self, max_eq_right h04, max_eq_left h04,
    max_eq_left h48, max_eq_left h48]

/-- Witness for C4 at `L = 2`, `P = 4`: moment `4*2/4 = 2` N·mm. -/
theorem maxMoment_central_load_witness :
    (0 : ℚ) < 2 ∧ (0 : ℚ) < 4 ∧
      maxMoment 2 [⟨4, 2 / 2, ""⟩] = 4 * 2 / 4 :=
  ⟨by norm_num, by norm_num,
   maxMoment_central_load 2 4 "" (by norm_num) (by norm_num)⟩

/-! ## C1: `run_checks` can raise on malformed field types -/

/-- C1. The spec states `run_checks` never raises on malformed domain
data. The code contradicts this: a truthy non-numeric `span_mm` (here a
list) reaches `float(...)` unguarded and raises `TypeError`. -/
theorem runChecks_raises_on_nonnumeric_span :
    runChecks cexSpanSnap [] = .error "TypeError" := rfl

/-! ## C3: only the structured branch drops non-positive magnitudes -/

/-- C3 counterexample. A legacy bare-number load of `-5` N survives
normalization with its non-positive magnitude intact (auto-positioned at
`span*1/2 = 50`), refuting the claim for the legacy shape. -/
theorem parse_keeps_nonpositive_legacy_load :
    (parseTierLoads cexLegacySnap 100 1).toOption.map
        (fun ls => ls.map Load.N) = some [-5]
    ∧ ¬ (0 < (-5 : ℚ)) :=
  ⟨rfl, by norm_num⟩

theorem v3Entry_pos (span : ℚ) (v : PyVal) (l : Load)
    (h : v3Entry span v = some l) : 0 < l.N := by
  cases v with
  | dict d =>
      simp only [v3Entry] at h
      split at h
      · split at h
        · exact absurd h (by simp)
        · rename_i hPle
          cases h
          exact lt_of_not_le hPle
      · exact Option.noConfusion h
  | none =>
      exact Option.noConfusion
        ((show v3Entry span PyVal.none = Option.none from rfl).symm.trans h)
  | bool b =>
      exact Option.noConfusion
        ((show v3Entry span (.bool b) = Option.none from rfl).symm.trans h)
  | num q =>
      exact Option.noConfusion
        ((show v3Entry span (.num q) = Option.none from rfl).symm.trans h)
  | str s =>
      exact Option.noConfusion
        ((show v3Entry span (.str s) = Option.none from rfl).symm.trans h)
  | list xs =>
      exact Option.noConfusion
        ((show v3Entry span (.list xs) = Option.none from rfl).symm.trans h)

/-- C3 amended. Whenever the resolved tier array is not legacy
bare-number shaped (so the structured-record branch of
`_parse_tier_loads` applies), every produced load has magnitude
strictly greater than zero. -/
theorem structured_loads_all_positive (snap : List (PyVal × PyVal))
    (span : ℚ) (t : ℕ) (arrv : PyVal) (out : List Load)
    (hres : resolveTierArr snap t = .ok arrv)
    (hshape : legacyShaped arrv = false)
    (hparse : parseTierLoads snap span t = .ok out) :
    ∀ l ∈ out, 0 < l.N := by
  simp only [parseTierLoads] at hparse
  obtain ⟨a, ha, hf⟩ := exceptBind_ok hparse
  have ha2 : a = arrv := Except.ok.inj (ha.symm.trans hres)
  subst ha2
  simp only [pure, Except.pure] at hf
  have hout : out = parseArr a span := (Except.ok.inj hf).symm
  subst hout
  intro l hl
  cases a with
  | list items =>
      have hh : headIsNum items = false := hshape
      rw [parseArr, if_neg (by rw [hh]; exact Bool.false_ne_true)] at hl
      obtain ⟨v, hv, hsome⟩ := List.mem_filterMap.mp hl
      exact v3Entry_pos span v l hsome
  | none => cases hl
  | bool b => cases hl
  | num q => cases hl
  | str s => cases hl
  | dict kvs => cases hl

/-- Witness for the amended C3: the structured tier
`[{"N": -3}, {"N": 7, "x_mm": 2}]` on span 10 normalizes to a single
load of `7 N`, which is positive. -/
theorem structured_loads_all_positive_witness :
    0 < ((⟨7, 2, ""⟩ : Load)).N :=
  structured_loads_all_positive witStructSnap 10 1
    (.list [.dict [(.str "N", .num (-3))],
            .dict [(.str "N", .num 7), (.str "x_mm", .num 2)]])
    [⟨7, 2, ""⟩] rfl rfl rfl ⟨7, 2, ""⟩ (by simp)

/-! ## C10: structured entry with positive `N` and no `x_mm` -/

/-- C10. A structured entry with positive magnitude and no `x_mm` field
is kept by normalization and placed at midspan `span/2` (the `get`
default), not treated as malformed. -/
theorem structured_load_missing_position_midspan (span P : ℚ)
    (d : List (PyVal × PyVal)) (hspan : 0 ≤ span) (hP : 0 < P)
    (hN : kvFindStr d "N" = some (.num P))
    (hx : kvFindStr d "x_mm" = Option.none) :
    v3Entry span (.dict d) = some ⟨P, span / 2,
        pyStrOf ((kvFindStr d "label").getD (.str ""))⟩
    ∧ parseArr (.list [.dict d]) span = [⟨P, span / 2,
        pyStrOf ((kvFindStr d "label").getD (.str ""))⟩] := by
  have h1 : v3Entry span (.dict d) = some ⟨P, span / 2,
      pyStrOf ((kvFindStr d "label").getD (.str ""))⟩ := by
    simp only [v3Entry, hN, hx, Option.getD, pyFloatOpt, pyFloat,
      Except.toOption]
    rw [min_eq_right (half_le_self hspan),
      max_eq_right (by linarith : (0 : ℚ) ≤ span / 2),
      if_neg (not_le.mpr hP)]
  refine ⟨h1, ?_⟩
  simp only [parseArr, headIsNum, isNumLike, if_neg Bool.false_ne_true,
    List.filterMap, h1]

/-- Witness for C10: entry `{"N": 4}` on span 6 → load `4 N` at 3 mm. -/
theorem structured_load_missing_position_midspan_witness :
    v3Entry 6 (.dict [(.str "N", .num 4)]) = some ⟨4, 6 / 2, ""⟩
    ∧ parseArr (.list [.dict [(.str "N", .num 4)]]) 6 = [⟨4, 6 / 2, ""⟩] :=
  structured_load_missing_position_midspan 6 4 [(.str "N", .num 4)]
    (by norm_num) (by norm_num) rfl rfl

/-! ## C5: central point load vs the sampled deflection maximum -/

theorem deflStep_ge_ten (L : ℚ) : 10 ≤ deflStep L := le_max_left _ _

/-- Every sampled abscissa is nonnegative, at most `L + 1e-6`, and
either within the span or at least one full step (≥ 10 mm) from the
left support. -/
theorem samplePts_mem (L x : ℚ) (hL : 0 < L) (hx : x ∈ samplePts L) :
    0 ≤ x ∧ x ≤ L + 1 / 1000000 ∧ (x ≤ L ∨ 10 ≤ x) := by
  simp only [samplePts] at hx
  obtain ⟨k, hk, rfl⟩ := List.mem_map.mp hx
  rw [List.mem_range] at hk
  have hstep : (10 : ℚ) ≤ deflStep L := deflStep_ge_ten L
  have hstep0 : (0 : ℚ) < deflStep L := by linarith
  have hk' : k ≤ ⌊(L + 1 / 1000000) / deflStep L⌋₊ := Nat.lt_succ_iff.mp hk
  have h1 : (k : ℚ) ≤ (L + 1 / 1000000) / deflStep L :=
    le_trans (Nat.cast_le.mpr hk') (Nat.floor_le (by positivity))
  refine ⟨by positivity, ?_, ?_⟩
  · calc (k : ℚ) * deflStep L
        ≤ ((L + 1 / 1000000) / deflStep L) * deflStep L :=
          mul_le_mul_of_nonneg_right h1 hstep0.le
      _ = L + 1 / 1000000 := div_mul_cancel₀ _ (ne_of_gt hstep0)
  · by_cases hxL : (k : ℚ) * deflStep L ≤ L
    · exact Or.inl hxL
    · refine Or.inr ?_
      have hk1 : 1 ≤ k := by
        rcases Nat.eq_zero_or_pos k with h0 | h0
        · exfalso; apply hxL; rw [h0]; push_cast; linarith
        · exact h0
      calc (10 : ℚ) ≤ deflStep L := hstep
        _ = 1 * deflStep L := (one_mul _).symm
        _ ≤ (k : ℚ) * deflStep L :=
            mul_le_mul_of_nonneg_right (by exact_mod_cast hk1) hstep0.le

/-- The closed-form midspan deflection of the central point load. -/
theorem deflAt_central_eq (L E I P : ℚ) (hL : 0 < L) (hE : 0 < E)
    (hI : 0 < I) :
    deflAt P (L / 2) L E I (L / 2) = P * L ^ 3 / (48 * E * I) := by
  have hg : ¬ (L ≤ 0 ∨ E ≤ 0 ∨ I ≤ 0) := by
    simp only [not_or, not_le]; exact ⟨hL, hE, hI⟩
  rw [deflAt, if_neg hg, if_pos le_rfl]
  field_simp
  ring

/-- Per-sample bound: at every sampled abscissa the deflection of a
central point load is at most the closed-form midspan value. -/
theorem deflAt_central_bound (L E I P x : ℚ) (hL : 0 < L) (hE : 0 < E)
    (hI : 0 < I) (hP : 0 ≤ P) (hx0 : 0 ≤ x) (hxle : x ≤ L + 1 / 1000000)
    (hor : x ≤ L ∨ 10 ≤ x) :
    |deflAt P (L / 2) L E I x| ≤ P * L ^ 3 / (48 * E * I) := by
  have hg : ¬ (L ≤ 0 ∨ E ≤ 0 ∨ I ≤ 0) := by
    simp only [not_or, not_le]; exact ⟨hL, hE, hI⟩
  have hEI : 0 < E * I := mul_pos hE hI
  have hD : (0 : ℚ) ≤ P * L ^ 3 / (48 * E * I) := by positivity
  rw [deflAt, if_neg hg, abs_le]
  by_cases hxa : x ≤ L / 2
  · rw [if_pos hxa]
    have hnum : 0 ≤ P * (L - L / 2) * x *
        (L * L - (L - L / 2) * (L - L / 2) - x * x) := by
      have hfac : 0 ≤ P * (L - L / 2) * x :=
        mul_nonneg (mul_nonneg hP (by linarith)) hx0
      have hfac2 : 0 ≤ L * L - (L - L / 2) * (L - L / 2) - x * x := by
        nlinarith [mul_le_mul hxa hxa hx0 (show (0 : ℚ) ≤ L / 2 by linarith)]
      exact mul_nonneg hfac hfac2
    constructor
    · have : 0 ≤ P * (L - L / 2) * x *
          (L * L - (L - L / 2) * (L - L / 2) - x * x) / (6 * L * E * I) :=
        div_nonneg hnum (by positivity)
      linarith
    · rw [div_le_div_iff (by positivity) (by positivity)]
      nlinarith [mul_nonneg (mul_nonneg (mul_nonneg hEI.le hP)
        (sq_nonneg (L / 2 - x))) (show (0 : ℚ) ≤ L + x by linarith),
        mul_pos hEI hL]
  · rw [if_neg hxa]
    push_neg at hxa
    by_cases hxr : x ≤ L
    · have hu0 : 0 ≤ L - x := by linarith
      have hu2 : L - x < L / 2 := by linarith
      have hnum : 0 ≤ P * (L / 2) * (L - x) *
          (L * L - L / 2 * (L / 2) - (L - x) * (L - x)) := by
        have hfac : 0 ≤ P * (L / 2) * (L - x) :=
          mul_nonneg (mul_nonneg hP (by linarith)) hu0
        have hfac2 : 0 ≤ L * L - L / 2 * (L / 2) - (L - x) * (L - x) := by
          nlinarith [mul_le_mul hu2.le hu2.le hu0 (show (0 : ℚ) ≤ L / 2 by linarith)]
        exact mul_nonneg hfac hfac2
      constructor
      · have : 0 ≤ P * (L / 2) * (L - x) *
            (L * L - L / 2 * (L / 2) - (L - x) * (L - x)) / (6 * L * E * I) :=
          div_nonneg hnum (by positivity)
        linarith
      · rw [div_le_div_iff (by positivity) (by positivity)]
        nlinarith [mul_nonneg (mul_nonneg (mul_nonneg hEI.le hP)
          (sq_nonneg (L / 2 - (L - x)))) (show (0 : ℚ) ≤ L + (L - x) by linarith),
          mul_pos hEI hL]
    · push_neg at hxr
      have h10 : 10 ≤ x := hor.resolve_left (not_le.mpr hxr)
      have hL10 : 10 - 1 / 1000000 ≤ L := by linarith
      have hu1 : -(L - x) ≤ 1 / 1000000 := by linarith
      have hu3 : L - x < 0 := by linarith
      constructor
      · rw [← neg_div, div_le_div_iff (by positivity) (by positivity)]
        have hw3 : 0 ≤ -((L - x) * (L - x) * (L - x)) := by nlinarith
        nlinarith [mul_nonneg (mul_nonneg (mul_nonneg hP hEI.le)
            (pow_nonneg hL.le 3)) (show (0 : ℚ) ≤ 3 * (L - x) + L by linarith),
          mul_nonneg (mul_nonneg (mul_nonneg hP hEI.le) hL.le) hw3]
      · have hwsq : (L - x) * (L - x) ≤ 3 / 4 * (L * L) := by
          nlinarith [mul_nonneg (show (0 : ℚ) ≤ -(L - x) by linarith)
            (show (0 : ℚ) ≤ (L - x) + 1 / 1000000 by linarith)]
        have hnum : P * (L / 2) * (L - x) *
            (L * L - L / 2 * (L / 2) - (L - x) * (L - x)) ≤ 0 := by
          have hbig : 0 ≤ L * L - L / 2 * (L / 2) - (L - x) * (L - x) := by
            nlinarith
          have hneg : P * (L / 2) * (L - x) ≤ 0 :=
            mul_nonpos_of_nonneg_of_nonpos
              (mul_nonneg hP (by linarith)) hu3.le
          nlinarith [mul_nonneg (neg_nonneg.mpr hneg) hbig]
        have hv : P * (L / 2) * (L - x) *
            (L * L - L / 2 * (L / 2) - (L - x) * (L - x)) / (6 * L * E * I)
            ≤ 0 := div_nonpos_of_nonpos_of_nonneg hnum (by positivity)
        linarith

/-- C5 amended. For a single central point load, `_max_deflection` never
exceeds the closed form `P*L³/(48*E*I)` and equals it exactly whenever
the midspan abscissa `L/2` is one of the sampled points. -/
theorem maxDefl_central_load_grid (L E I P : ℚ) (lbl : String)
    (hL : 0 < L) (hE : 0 < E) (hI : 0 < I) (hP : 0 < P) :
    maxDefl L [⟨P, L / 2, lbl⟩] E I ≤ P * L ^ 3 / (48 * E * I)
    ∧ (L / 2 ∈ samplePts L →
        maxDefl L [⟨P, L / 2, lbl⟩] E I = P * L ^ 3 / (48 * E * I)) := by
  have hsum : ∀ x : ℚ, deflSum [⟨P, L / 2, lbl⟩] L E I x
      = deflAt P (L / 2) L E I x := by
    intro x
    simp [deflSum]
  have hub : maxDefl L [⟨P, L / 2, lbl⟩] E I ≤ P * L ^ 3 / (48 * E * I) := by
    rw [maxDefl, if_neg (not_le.mpr hL)]
    refine foldl_max_le _ _ _ _ (by positivity) ?_
    intro p hp
    rw [hsum]
    obtain ⟨h0, h1, h2⟩ := samplePts_mem L p hL hp
    exact deflAt_central_bound L E I P p hL hE hI hP.le h0 h1 h2
  refine ⟨hub, fun hmem => le_antisymm hub ?_⟩
  have hctr : |deflSum [⟨P, L / 2, lbl⟩] L E I (L / 2)|
      = P * L ^ 3 / (48 * E * I) := by
    rw [hsum, deflAt_central_eq L E I P hL hE hI,
      abs_of_nonneg (by positivity)]
  calc P * L ^ 3 / (48 * E * I)
      = |deflSum [⟨P, L / 2, lbl⟩] L E I (L / 2)| := hctr.symm
    _ ≤ _ := by
        rw [maxDefl, if_neg (not_le.mpr hL)]
        exact mem_le_foldl_max _ _ _ _ hmem

theorem deflStep_fifteen : deflStep 15 = 10 := by
  rw [deflStep, min_eq_right (by norm_num : (15 : ℚ) / 120 ≤ 50),
    max_eq_left (by norm_num : (15 : ℚ) / 120 ≤ 10)]

theorem samplePts_fifteen : samplePts 15 = [0, 10] := by
  simp only [samplePts, deflStep_fifteen]
  have hfl : ⌊((15 : ℚ) + 1 / 1000000) / 10⌋₊ = 1 := by
    rw [Nat.floor_eq_iff (by norm_num)]
    norm_num
  rw [hfl, show List.range 2 = [0, 1] from rfl]
  norm_num

/-- C5 counterexample. At span 15 mm the sampler (step 10) never visits
midspan `7.5`, so the claimed closed form `P*L³/(48 E I)` is *not*
returned: the code yields `2875/48` instead of `3375/48`. -/
theorem maxDefl_central_not_closed_form :
    ((0 : ℚ) < 15 ∧ (0 : ℚ) < 1 ∧ (0 : ℚ) < 1) ∧
    maxDefl 15 [⟨1, 15 / 2, "w"⟩] 1 1 ≠ 1 * 15 ^ 3 / (48 * 1 * 1) := by
  refine ⟨by norm_num, ?_⟩
  have d0 : deflSum [⟨1, 15 / 2, "w"⟩] 15 1 1 0 = 0 := by
    simp only [deflSum, List.foldl, deflAt]
    rw [if_neg (by norm_num), if_pos (by norm_num)]
    norm_num
  have d10 : deflSum [⟨1, 15 / 2, "w"⟩] 15 1 1 10 = 2875 / 48 := by
    simp only [deflSum, List.foldl, deflAt]
    rw [if_neg (by norm_num), if_neg (by norm_num)]
    norm_num
  rw [maxDefl, if_neg (by norm_num), samplePts_fifteen]
  simp only [List.foldl]
  rw [d0, d10, abs_zero, max_self, abs_of_nonneg (by norm_num : (0:ℚ) ≤ 2875 / 48),
    max_eq_right (by norm_num : (0:ℚ) ≤ 2875 / 48)]
  norm_num

theorem deflStep_twenty : deflStep 20 = 10 := by
  rw [deflStep, min_eq_right (by norm_num : (20 : ℚ) / 120 ≤ 50),
    max_eq_left (by norm_num : (20 : ℚ) / 120 ≤ 10)]

theorem samplePts_twenty : samplePts 20 = [0, 10, 20] := by
  simp only [samplePts, deflStep_twenty]
  have hfl : ⌊((20 : ℚ) + 1 / 1000000) / 10⌋₊ = 2 := by
    rw [Nat.floor_eq_iff (by norm_num)]
    norm_num
  rw [hfl, show List.range 3 = [0, 1, 2] from rfl]
  norm_num

/-- Witness for the amended C5 at `L = 20`, `E = I = P = 1`: midspan 10
is sampled and the code returns exactly `20³/48`. -/
theorem maxDefl_central_load_grid_witness :
    maxDefl 20 [⟨1, 20 / 2, ""⟩] 1 1 = 1 * 20 ^ 3 / (48 * 1 * 1) :=
  (maxDefl_central_load_grid 20 1 1 1 "" (by norm_num) (by norm_num)
    (by norm_num) (by norm_num)).2
    (by rw [samplePts_twenty]; norm_num)

/-! ## C9: monotonicity of the envelopes in a load magnitude -/

theorem foldl_msub_eq (x : ℚ) :
    ∀ (loads : List Load) (c : ℚ),
      loads.foldl (fun M it => if it.x ≤ x then M - it.N * (x - it.x) else M) c
      = c - (loads.map
          (fun it => if it.x ≤ x then it.N * (x - it.x) else 0)).sum := by
  intro loads
  induction loads with
  | nil => intro c; simp
  | cons a t ih =>
      intro c
      by_cases h : a.x ≤ x <;>
        simp only [List.foldl_cons, if_pos, if_neg, h, ih, List.map_cons,
          List.sum_cons, if_true, if_false, ite_true, ite_false] <;> ring

/-- Bending moment as a sum of independent per-load contributions. -/
theorem momentAtX_eq_sum (L : ℚ) (loads : List Load) (x : ℚ) (hL : 0 < L) :
    momentAtX L loads x =
      (loads.map (fun it => it.N * ((L - it.x) / L) * x
        - (if it.x ≤ x then it.N * (x - it.x) else 0))).sum := by
  rw [momentAtX, if_neg (not_le.mpr hL), foldl_msub_eq, reactionsPL,
    if_neg (not_le.mpr hL), reactionsPL_fold]
  simp only [zero_add]
  rw [← List.sum_map_mul_right, ← sum_map_sub]
  congr 1
  apply List.map_congr_left
  intro it _
  ring_nf

/-- Each per-load moment contribution is nonnegative on the span. -/
theorem moment_term_nonneg (L x : ℚ) (it : Load) (hL : 0 < L)
    (hx0 : 0 ≤ x) (hxL : x ≤ L) (hN : 0 ≤ it.N) (ha0 : 0 ≤ it.x)
    (haL : it.x ≤ L) :
    0 ≤ it.N * ((L - it.x) / L) * x
      - (if it.x ≤ x then it.N * (x - it.x) else 0) := by
  by_cases h : it.x ≤ x
  · rw [if_pos h]
    have key : it.N * ((L - it.x) / L) * x - it.N * (x - it.x)
        = it.N * (it.x * (L - x)) / L := by
      field_simp
      ring
    rw [key]
    apply div_nonneg _ hL.le
    exact mul_nonneg hN (mul_nonneg ha0 (by linarith))
  · rw [if_neg h]
    simp only [sub_zero]
    apply mul_nonneg _ hx0
    exact mul_nonneg hN (div_nonneg (by linarith) hL.le)

theorem momentAtX_nonneg (L x : ℚ) (loads : List Load) (hL : 0 < L)
    (hx0 : 0 ≤ x) (hxL : x ≤ L)
    (hpos : ∀ l ∈ loads, 0 ≤ l.N ∧ 0 ≤ l.x ∧ l.x ≤ L) :
    0 ≤ momentAtX L loads x := by
  rw [momentAtX_eq_sum L loads x hL]
  apply List.sum_nonneg
  intro q hq
  obtain ⟨it, hit, rfl⟩ := List.mem_map.mp hq
  obtain ⟨h1, h2, h3⟩ := hpos it hit
  exact moment_term_nonneg L x it hL hx0 hxL h1 h2 h3

/-- Raising one load's magnitude cannot lower the moment anywhere on
the span. -/
theorem momentAtX_mono (L x P' : ℚ) (pre post : List Load) (l0 : Load)
    (hL : 0 < L) (hx0 : 0 ≤ x) (hxL : x ≤ L)
    (ha0 : 0 ≤ l0.x) (haL : l0.x ≤ L) (hNP : l0.N ≤ P') :
    momentAtX L (pre ++ l0 :: post) x
      ≤ momentAtX L (pre ++ ⟨P', l0.x, l0.label⟩ :: post) x := by
  rw [momentAtX_eq_sum L _ x hL, momentAtX_eq_sum L _ x hL]
  simp only [List.map_append, List.sum_append, List.map_cons, List.sum_cons]
  have hterm : l0.N * ((L - l0.x) / L) * x
        - (if l0.x ≤ x then l0.N * (x - l0.x) else 0)
      ≤ P' * ((L - l0.x) / L) * x
        - (if l0.x ≤ x then P' * (x - l0.x) else 0) := by
    by_cases h : l0.x ≤ x
    · rw [if_pos h, if_pos h]
      have key : ∀ N : ℚ, N * ((L - l0.x) / L) * x - N * (x - l0.x)
          = N * (l0.x * (L - x)) / L := by
        intro N; field_simp; ring
      rw [key, key]
      exact div_le_div_of_nonneg_right
        (mul_le_mul_of_nonneg_right hNP
          (mul_nonneg ha0 (by linarith))) hL.le
    · rw [if_neg h, if_neg h]
      simp only [sub_zero]
      apply mul_le_mul_of_nonneg_right _ hx0
      exact mul_le_mul_of_nonneg_right hNP
        (div_nonneg (by linarith) hL.le)
  linarith

theorem mem_insertSorted (x q : ℚ) :
    ∀ t : List ℚ, q ∈ insertSorted x t → q = x ∨ q ∈ t := by
  intro t
  induction t with
  | nil =>
      intro h
      simp only [insertSorted, List.mem_singleton] at h
      exact Or.inl h
  | cons y ys ih =>
      intro h
      rw [insertSorted] at h
      split_ifs at h with h1 h2
      · rcases List.mem_cons.mp h with h' | h'
        · exact Or.inl h'
        · exact Or.inr h'
      · exact Or.inr h
      · rcases List.mem_cons.mp h with h' | h'
        · exact Or.inr (by simp [h'])
        · rcases ih h' with h'' | h''
          · exact Or.inl h''
          · exact Or.inr (by simp [h''])

theorem mem_sortedDedup (q : ℚ) :
    ∀ l : List ℚ, q ∈ sortedDedup l → q ∈ l := by
  intro l
  induction l with
  | nil => intro h; simpa [sortedDedup] using h
  | cons a t ih =>
      intro h
      have h' : q ∈ insertSorted a (sortedDedup t) := h
      rcases mem_insertSorted a q _ h' with h'' | h''
      · simp [h'']
      · simp [ih h'']

theorem midList_bounds (lo hi : ℚ) :
    ∀ l : List ℚ, (∀ p ∈ l, lo ≤ p ∧ p ≤ hi) →
      ∀ q ∈ midList l, lo ≤ q ∧ q ≤ hi := by
  intro l
  induction l with
  | nil => intro _ q hq; simp [midList] at hq
  | cons a t ih =>
      cases t with
      | nil => intro _ q hq; simp [midList] at hq
      | cons b t2 =>
          intro hall q hq
          rw [midList] at hq
          rcases List.mem_cons.mp hq with h | h
          · subst h
            have ha := hall a (by simp)
            have hb := hall b (by simp)
            constructor <;> [linarith [ha.1, hb.1]; linarith [ha.2, hb.2]]
          · exact ih (fun p hp => hall p (by simp [hp])) q h

/-- The candidate abscissae of `_max_moment` all lie in `[0, L]`. -/
theorem maxMoment_pts_bounds (L : ℚ) (loads : List Load) (hL : 0 < L)
    (p : ℚ)
    (hp : p ∈ sortedDedup
      (([0, L] ++ loads.map (·.x)).map (fun q => max 0 (min L q)))) :
    0 ≤ p ∧ p ≤ L := by
  have hmem := mem_sortedDedup p _ hp
  obtain ⟨q, _, rfl⟩ := List.mem_map.mp hmem
  constructor
  · exact le_max_left _ _
  · exact max_le hL.le (min_le_left _ _)

/-- C9 (moment half): raising one load magnitude never lowers
`_max_moment`. -/
theorem maxMoment_mono (L P' : ℚ) (pre post : List Load) (l0 : Load)
    (hL : 0 < L)
    (hpos : ∀ l ∈ pre ++ l0 :: post, 0 ≤ l.N ∧ 0 ≤ l.x ∧ l.x ≤ L)
    (hNP : l0.N ≤ P') :
    maxMoment L (pre ++ l0 :: post)
      ≤ maxMoment L (pre ++ ⟨P', l0.x, l0.label⟩ :: post) := by
  have hl0 := hpos l0 (by simp)
  have hpos' : ∀ l ∈ pre ++ (⟨P', l0.x, l0.label⟩ : Load) :: post,
      0 ≤ l.N ∧ 0 ≤ l.x ∧ l.x ≤ L := by
    intro l hl
    rcases List.mem_append.mp hl with h | h
    · exact hpos l (List.mem_append.mpr (Or.inl h))
    · rcases List.mem_cons.mp h with h' | h'
      · subst h'
        exact ⟨le_trans hl0.1 hNP, hl0.2.1, hl0.2.2⟩
      · exact hpos l (by simp [h'])
  have hxeq : (pre ++ (⟨P', l0.x, l0.label⟩ : Load) :: post).map (·.x)
      = (pre ++ l0 :: post).map (·.x) := by
    simp
  have hptw : ∀ p : ℚ, 0 ≤ p → p ≤ L →
      |momentAtX L (pre ++ l0 :: post) p|
        ≤ |momentAtX L (pre ++ ⟨P', l0.x, l0.label⟩ :: post) p| := by
    intro p hp0 hpL
    rw [abs_of_nonneg (momentAtX_nonneg L p _ hL hp0 hpL hpos),
      abs_of_nonneg (momentAtX_nonneg L p _ hL hp0 hpL hpos')]
    exact momentAtX_mono L p P' pre post l0 hL hp0 hpL hl0.2.1 hl0.2.2 hNP
  simp only [maxMoment, hxeq]
  have hbnd : ∀ p ∈ sortedDedup
      (([0, L] ++ (pre ++ l0 :: post).map (·.x)).map
        (fun q => max 0 (min L q))), 0 ≤ p ∧ p ≤ L :=
    fun p hp => maxMoment_pts_bounds L _ hL p hp
  have hmid : ∀ p ∈ midList (sortedDedup
      (([0, L] ++ (pre ++ l0 :: post).map (·.x)).map
        (fun q => max 0 (min L q)))), 0 ≤ p ∧ p ≤ L :=
    midList_bounds 0 L _ hbnd
  apply foldl_max_mono
  · apply foldl_max_mono _ _ _ _ _ le_rfl
    intro p hp
    exact hptw p (hbnd p hp).1 (hbnd p hp).2
  · intro p hp
    exact hptw p (hmid p hp).1 (hmid p hp).2

theorem deflAt_smul (P a L E I x : ℚ) :
    deflAt P a L E I x = P * deflAt 1 a L E I x := by
  rw [deflAt, deflAt]
  split_ifs <;> ring

theorem deflAt_nonneg (P a L E I x : ℚ) (hP : 0 ≤ P) (ha0 : 0 ≤ a)
    (haL : a ≤ L) (hx0 : 0 ≤ x) (hxL : x ≤ L) :
    0 ≤ deflAt P a L E I x := by
  rw [deflAt]
  split_ifs with hg hxa
  · exact le_rfl
  · push_neg at hg
    obtain ⟨hL, hE, hI⟩ := hg
    apply div_nonneg _ (by positivity)
    have h2 : 0 ≤ L * L - (L - a) * (L - a) - x * x := by
      nlinarith [mul_le_mul hxa hxa hx0 ha0]
    exact mul_nonneg (mul_nonneg (mul_nonneg hP (by linarith)) hx0) h2
  · push_neg at hg hxa
    obtain ⟨hL, hE, hI⟩ := hg
    apply div_nonneg _ (by positivity)
    have hu0 : 0 ≤ L - x := by linarith
    have hub : L - x ≤ L - a := by linarith
    have h2 : 0 ≤ L * L - a * a - (L - x) * (L - x) := by
      nlinarith [mul_le_mul hub hub hu0 (by linarith : (0:ℚ) ≤ L - a)]
    exact mul_nonneg (mul_nonneg (mul_nonneg hP ha0) hu0) h2

theorem deflSum_eq_sum (loads : List Load) (L E I x : ℚ) :
    deflSum loads L E I x =
      (loads.map (fun it => deflAt it.N it.x L E I x)).sum := by
  rw [deflSum, foldl_add_eq]
  simp

theorem deflSum_nonneg (loads : List Load) (L E I x : ℚ) (hx0 : 0 ≤ x)
    (hxL : x ≤ L)
    (hpos : ∀ l ∈ loads, 0 ≤ l.N ∧ 0 ≤ l.x ∧ l.x ≤ L) :
    0 ≤ deflSum loads L E I x := by
  rw [deflSum_eq_sum]
  apply List.sum_nonneg
  intro q hq
  obtain ⟨it, hit, rfl⟩ := List.mem_map.mp hq
  obtain ⟨h1, h2, h3⟩ := hpos it hit
  exact deflAt_nonneg it.N it.x L E I x h1 h2 h3 hx0 hxL

/-- When the last sample does not overshoot the span, every sample lies
in `[0, L]`. -/
theorem samplePts_within (L x : ℚ) (hL : 0 < L)
    (hgrid : (⌊(L + 1 / 1000000) / deflStep L⌋₊ : ℚ) * deflStep L ≤ L)
    (hx : x ∈ samplePts L) : 0 ≤ x ∧ x ≤ L := by
  have h0 := (samplePts_mem L x hL hx).1
  refine ⟨h0, ?_⟩
  simp only [samplePts] at hx
  obtain ⟨k, hk, rfl⟩ := List.mem_map.mp hx
  rw [List.mem_range] at hk
  have hk' : k ≤ ⌊(L + 1 / 1000000) / deflStep L⌋₊ := Nat.lt_succ_iff.mp hk
  have hstep0 : (0 : ℚ) ≤ deflStep L := by
    have := deflStep_ge_ten L; linarith
  calc (k : ℚ) * deflStep L
      ≤ (⌊(L + 1 / 1000000) / deflStep L⌋₊ : ℚ) * deflStep L :=
        mul_le_mul_of_nonneg_right (Nat.cast_le.mpr hk') hstep0
    _ ≤ L := hgrid

/-- C9 (deflection half): raising one load magnitude never lowers
`_max_deflection`, provided no sample overshoots the span. -/
theorem maxDefl_mono (L E I P' : ℚ) (pre post : List Load) (l0 : Load)
    (hL : 0 < L)
    (hpos : ∀ l ∈ pre ++ l0 :: post, 0 ≤ l.N ∧ 0 ≤ l.x ∧ l.x ≤ L)
    (hNP : l0.N ≤ P')
    (hgrid : (⌊(L + 1 / 1000000) / deflStep L⌋₊ : ℚ) * deflStep L ≤ L) :
    maxDefl L (pre ++ l0 :: post) E I
      ≤ maxDefl L (pre ++ ⟨P', l0.x, l0.label⟩ :: post) E I := by
  have hl0 := hpos l0 (by simp)
  have hpos' : ∀ l ∈ pre ++ (⟨P', l0.x, l0.label⟩ : Load) :: post,
      0 ≤ l.N ∧ 0 ≤ l.x ∧ l.x ≤ L := by
    intro l hl
    rcases List.mem_append.mp hl with h | h
    · exact hpos l (List.mem_append.mpr (Or.inl h))
    · rcases List.mem_cons.mp h with h' | h'
      · subst h'
        exact ⟨le_trans hl0.1 hNP, hl0.2.1, hl0.2.2⟩
      · exact hpos l (by simp [h'])
  rw [maxDefl, maxDefl, if_neg (not_le.mpr hL), if_neg (not_le.mpr hL)]
  apply foldl_max_mono _ _ _ _ _ le_rfl
  intro p hp
  obtain ⟨hp0, hpL⟩ := samplePts_within L p hL hgrid hp
  rw [abs_of_nonneg (deflSum_nonneg _ L E I p hp0 hpL hpos),
    abs_of_nonneg (deflSum_nonneg _ L E I p hp0 hpL hpos')]
  rw [deflSum_eq_sum, deflSum_eq_sum]
  simp only [List.map_append, List.sum_append, List.map_cons, List.sum_cons]
  have hterm : deflAt l0.N l0.x L E I p ≤ deflAt P' l0.x L E I p := by
    rw [deflAt_smul l0.N l0.x L E I p, deflAt_smul P' l0.x L E I p]
    exact mul_le_mul_of_nonneg_right hNP
      (deflAt_nonneg 1 l0.x L E I p (by norm_num) hl0.2.1 hl0.2.2 hp0 hpL)
  linarith

/-- C9 amended. For a fixed span and fixed positions, raising the
magnitude of any single load never lowers `_max_moment`; it also never
lowers `_max_deflection` provided the sampling grid does not overshoot
the span (the last sample `⌊(L+1e-6)/step⌋*step` is at most `L`).
Without that proviso the deflection half is false (see the
counterexample). -/
theorem envelopes_monotone_in_magnitude (L E I P' : ℚ)
    (pre post : List Load) (l0 : Load)
    (hL : 0 < L) (_hE : 0 < E) (_hI : 0 < I)
    (hpos : ∀ l ∈ pre ++ l0 :: post, 0 < l.N ∧ 0 ≤ l.x ∧ l.x ≤ L)
    (hNP : l0.N ≤ P') :
    maxMoment L (pre ++ l0 :: post)
      ≤ maxMoment L (pre ++ ⟨P', l0.x, l0.label⟩ :: post)
    ∧ ((⌊(L + 1 / 1000000) / deflStep L⌋₊ : ℚ) * deflStep L ≤ L →
        maxDefl L (pre ++ l0 :: post) E I
          ≤ maxDefl L (pre ++ ⟨P', l0.x, l0.label⟩ :: post) E I) := by
  have hpos' : ∀ l ∈ pre ++ l0 :: post, 0 ≤ l.N ∧ 0 ≤ l.x ∧ l.x ≤ L :=
    fun l hl => ⟨(hpos l hl).1.le, (hpos l hl).2.1, (hpos l hl).2.2⟩
  exact ⟨maxMoment_mono L P' pre post l0 hL hpos' hNP,
    fun hgrid => maxDefl_mono L E I P' pre post l0 hL hpos' hNP hgrid⟩

/-- Witness for the amended C9 at span 20, load `1 N` at midspan raised
to `3 N`. -/
theorem envelopes_monotone_in_magnitude_witness :
    maxMoment 20 ([] ++ (⟨1, 10, "w"⟩ : Load) :: [])
      ≤ maxMoment 20 ([] ++ (⟨3, 10, "w"⟩ : Load) :: [])
    ∧ maxDefl 20 ([] ++ (⟨1, 10, "w"⟩ : Load) :: []) 1 1
      ≤ maxDefl 20 ([] ++ (⟨3, 10, "w"⟩ : Load) :: []) 1 1 := by
  have h := envelopes_monotone_in_magnitude 20 1 1 3 [] [] ⟨1, 10, "w"⟩
    (by norm_num) (by norm_num) (by norm_num)
    (by intro l hl; simp only [List.nil_append, List.mem_singleton] at hl
        subst hl; refine ⟨by norm_num, by norm_num, by norm_num⟩)
    (by norm_num)
  refine ⟨h.1, h.2 ?_⟩
  have hfl : ⌊((20 : ℚ) + 1 / 1000000) / deflStep 20⌋₊ = 2 := by
    rw [deflStep_twenty, Nat.floor_eq_iff (by norm_num)]
    norm_num
  rw [hfl, deflStep_twenty]
  norm_num

theorem deflStep_cex : deflStep (99999999 / 10000000) = 10 := by
  rw [deflStep, min_eq_right (by norm_num), max_eq_left (by norm_num)]

theorem samplePts_cex : samplePts (99999999 / 10000000) = [0, 10] := by
  simp only [samplePts, deflStep_cex]
  have hfl : ⌊(((99999999 : ℚ) / 10000000) + 1 / 1000000) / 10⌋₊ = 1 := by
    rw [Nat.floor_eq_iff (by norm_num)]
    norm_num
  rw [hfl, show List.range 2 = [0, 1] from rfl]
  norm_num

/-- C9 counterexample. Span `9.9999999` mm: the `1e-6` while-loop
tolerance admits the sample `x = 10` just beyond the right support,
where the 5 mm load's deflection term is negative; raising that load's
magnitude from 1 to 2 strictly *decreases* the reported maximum
deflection, refuting the unconditional claim. All the claim's stated
conditions hold: positive span, `E, I > 0`, positive magnitudes,
positions within `[0, span]`. -/
theorem maxDefl_not_monotone_in_magnitude :
    ((0 : ℚ) < 99999999 / 10000000 ∧ (0 : ℚ) < 1
      ∧ (0 : ℚ) ≤ 99999999 / 10000000
      ∧ (99999999 : ℚ) / 10000000 ≤ 99999999 / 10000000
      ∧ (0 : ℚ) ≤ 5 ∧ (5 : ℚ) ≤ 99999999 / 10000000
      ∧ (1 : ℚ) ≤ 2)
    ∧ maxDefl (99999999 / 10000000)
        [⟨10000000000000000, 99999999 / 10000000, "A"⟩, ⟨2, 5, "B"⟩] 1 1
      < maxDefl (99999999 / 10000000)
        [⟨10000000000000000, 99999999 / 10000000, "A"⟩, ⟨1, 5, "B"⟩] 1 1 := by
  refine ⟨by norm_num, ?_⟩
  rw [maxDefl, maxDefl, if_neg (by norm_num), if_neg (by norm_num),
    samplePts_cex]
  norm_num [deflSum, deflAt, List.foldl, abs]

/-! ## Inversion of `runChecks` and the C6/C7/C8 claims -/

/-- Successful runs of `run_checks` factor through `assembleResult`
applied to the resolved inputs. -/
theorem runChecks_ok_inv (snap lib : List (PyVal × PyVal)) (r : CheckResult)
    (h : runChecks snap lib = .ok r) :
    ∃ (span : ℚ) (tc0 : ℤ) (e0 i0 z0 g0 : PyVal) (E Ixx Zxx : ℚ)
      (tiers : List TierDatum) (rodCap anchorCap : Option ℚ) (bam : ℚ),
      pyFloat (pyOr (pyGetKV snap "span_mm") (.num 0)) = .ok span ∧
      pyInt (pyOr (pyGetKV snap "tier_count") (.num 1)) = .ok tc0 ∧
      pyDictGet (pyOr (pyGetKV lib "profile") (.dict [])) "E_N_per_mm2"
        = .ok e0 ∧
      pyFloat (pyOr e0 (.num 200000)) = .ok E ∧
      pyDictGet (pyOr (pyGetKV lib "profile") (.dict [])) "Ixx_mm4"
        = .ok i0 ∧
      pyFloat (pyOr i0 (.num 1)) = .ok Ixx ∧
      pyDictGet (pyOr (pyGetKV lib "profile") (.dict [])) "Zxx_mm3"
        = .ok z0 ∧
      pyFloat (pyOr z0 (.num 1)) = .ok Zxx ∧
      pyDictGet (pyOr (pyGetKV lib "profile") (.dict [])) "material_grade"
        = .ok g0 ∧
      ((List.range (max 1 (min 3 tc0)).toNat).map (· + 1)).mapM
        (tierDatum snap span E Ixx) = .ok tiers ∧
      extractCap (pyOr (pyGetKV lib "rod") (.dict [])) = .ok rodCap ∧
      extractCap (pyOr (pyGetKV lib "anchor") (.dict [])) = .ok anchorCap ∧
      pyFloat (pyOr (pyGetKV lib "bearing_area_multiplier") (.num 1))
        = .ok bam ∧
      r = assembleResult snap span
        (pyOr (pyGetKV lib "profile") (.dict []))
        (pyOr (pyGetKV lib "rod") (.dict []))
        (pyOr (pyGetKV lib "washer") (.dict []))
        (pyOr (pyGetKV lib "anchor") (.dict []))
        Zxx (pyStrOf (pyOr g0 (.str "S235"))) tiers rodCap anchorCap bam := by
  simp only [runChecks] at h
  obtain ⟨span, h1, h⟩ := exceptBind_ok h
  obtain ⟨tc0, h2, h⟩ := exceptBind_ok h
  obtain ⟨e0, h3, h⟩ := exceptBind_ok h
  obtain ⟨E, h4, h⟩ := exceptBind_ok h
  obtain ⟨i0, h5, h⟩ := exceptBind_ok h
  obtain ⟨Ixx, h6, h⟩ := exceptBind_ok h
  obtain ⟨z0, h7, h⟩ := exceptBind_ok h
  obtain ⟨Zxx, h8, h⟩ := exceptBind_ok h
  obtain ⟨g0, h9, h⟩ := exceptBind_ok h
  obtain ⟨tiers, h10, h⟩ := exceptBind_ok h
  obtain ⟨rodCap, h11, h⟩ := exceptBind_ok h
  obtain ⟨anchorCap, h12, h⟩ := exceptBind_ok h
  obtain ⟨bam, h13, h⟩ := exceptBind_ok h
  simp only [pure, Except.pure] at h
  exact ⟨span, tc0, e0, i0, z0, g0, E, Ixx, Zxx, tiers, rodCap, anchorCap,
    bam, h1, h2, h3, h4, h5, h6, h7, h8, h9, h10, h11, h12, h13,
    (Except.ok.inj h).symm⟩

theorem governing_spec (b d ro a : Bool) :
    governingOf b d ro a =
      (if (mkChecks b d ro a).bending = "FAIL" then "bending"
       else if (mkChecks b d ro a).deflection = "FAIL" then "deflection"
       else if (mkChecks b d ro a).rod = "FAIL" then "rod"
       else if (mkChecks b d ro a).anchor = "FAIL" then "anchor"
       else "PASS")
    ∧ (statusOf (governingOf b d ro a) = "PASS" ↔
        (mkChecks b d ro a).bending = "PASS"
        ∧ (mkChecks b d ro a).deflection = "PASS"
        ∧ (mkChecks b d ro a).rod = "PASS"
        ∧ (mkChecks b d ro a).anchor = "PASS") := by
  cases b <;> cases d <;> cases ro <;> cases a <;>
    simp [mkChecks, governingOf, statusOf]

/-- C7. For every successful evaluation, the governing check is the
first `FAIL` in the fixed priority order bending, deflection, rod,
anchor, and the overall status is `PASS` iff no category failed; in
particular a snapshot failing both bending and deflection reports
`governing_check = "bending"`. -/
theorem governing_first_fail_priority (snap lib : List (PyVal × PyVal))
    (r : CheckResult) (h : runChecks snap lib = .ok r) :
    r.governing_check =
      (if r.checks.bending = "FAIL" then "bending"
       else if r.checks.deflection = "FAIL" then "deflection"
       else if r.checks.rod = "FAIL" then "rod"
       else if r.checks.anchor = "FAIL" then "anchor"
       else "PASS")
    ∧ (r.status = "PASS" ↔ r.checks.bending = "PASS"
        ∧ r.checks.deflection = "PASS" ∧ r.checks.rod = "PASS"
        ∧ r.checks.anchor = "PASS") := by
  obtain ⟨span, tc0, e0, i0, z0, g0, E, Ixx, Zxx, tiers, rodCap, anchorCap,
    bam, _, _, _, _, _, _, _, _, _, _, _, _, _, hr⟩ :=
    runChecks_ok_inv snap lib r h
  subst hr
  exact governing_spec _ _ _ _

theorem assembleResult_checks (snap : List (PyVal × PyVal)) (span : ℚ)
    (prof rodv washerv anchorv : PyVal) (Zxx : ℚ) (grade : String)
    (tiers : List TierDatum) (rodCap anchorCap : Option ℚ) (bam : ℚ) :
    (assembleResult snap span prof rodv washerv anchorv Zxx grade tiers
        rodCap anchorCap bam).checks
      = mkChecks (bendFailOf Zxx grade tiers) (deflFailOf span tiers)
          (capFailOf rodCap tiers) (capFailOf anchorCap tiers) := rfl

theorem assembleResult_moment_last (snap : List (PyVal × PyVal)) (span : ℚ)
    (prof rodv washerv anchorv : PyVal) (Zxx : ℚ) (grade : String)
    (tiers : List TierDatum) (rodCap anchorCap : Option ℚ) (bam : ℚ) :
    (assembleResult snap span prof rodv washerv anchorv Zxx grade tiers
        rodCap anchorCap bam).max_moment_kNm.getLast?
      = some ("total", totalMOf tiers / 1000000) := by
  show (List.map _ _ ++ [("total", totalMOf tiers / 1000000)]).getLast?
    = some ("total", totalMOf tiers / 1000000)
  exact List.getLast?_concat _

theorem mkChecks_bending (b d ro a : Bool) :
    (mkChecks b d ro a).bending = if b then "FAIL" else "PASS" := rfl

theorem mkChecks_rod (b d ro a : Bool) :
    (mkChecks b d ro a).rod = if ro then "FAIL" else "PASS" := rfl

theorem mkChecks_anchor (b d ro a : Bool) :
    (mkChecks b d ro a).anchor = if a then "FAIL" else "PASS" := rfl

theorem fy_le_355 (g : String) : fyFromGrade g ≤ 355 := by
  simp only [fyFromGrade]
  split_ifs <;> norm_num

theorem sigmaAllow_le_213 (g : String) : sigmaAllowOf g ≤ 213 := by
  have := fy_le_355 g
  rw [sigmaAllowOf]
  linarith

/-- C6 amended. Whenever the profile's `Zxx_mm3` is missing or zero, the
default `Zxx = 1` is substituted, so the bending check fails as soon as
the computed governing moment (restated from the result's `total` entry
in N·mm) exceeds 213 N·mm — `0.6 × 355`, the largest possible allowable
stress times the default modulus — which any real load does. (With no
loads the moment is zero and bending still passes, so the unconditional
claim fails; see the counterexample.) -/
theorem missing_Zxx_fails_bending_under_load (snap lib : List (PyVal × PyVal))
    (r : CheckResult) (v : PyVal) (M : ℚ)
    (h : runChecks snap lib = .ok r)
    (hz : pyDictGet (pyOr (pyGetKV lib "profile") (.dict [])) "Zxx_mm3"
      = .ok v)
    (hv : v = PyVal.none ∨ v = PyVal.num 0)
    (hM : r.max_moment_kNm.getLast? = some ("total", M))
    (h213 : 213 < M * 1000000) :
    r.checks.bending = "FAIL" := by
  obtain ⟨span, tc0, e0, i0, z0, g0, E, Ixx, Zxx, tiers, rodCap, anchorCap,
    bam, _, _, _, _, _, _, hz0, hZxx, _, _, _, _, _, hr⟩ :=
    runChecks_ok_inv snap lib r h
  have hz0v : z0 = v := Except.ok.inj (hz0.symm.trans hz)
  have hZ1 : Zxx = 1 := by
    rcases hv with hv' | hv' <;> rw [hz0v, hv'] at hZxx <;>
      exact (Except.ok.inj hZxx).symm
  subst hr
  rw [assembleResult_moment_last] at hM
  have hMO : M = totalMOf tiers / 1000000 :=
    ((Prod.mk.injEq _ _ _ _).mp (Option.some.inj hM)).2.symm
  have htot : 213 < totalMOf tiers := by
    rw [hMO, div_mul_cancel₀ _ (by norm_num : (1000000 : ℚ) ≠ 0)] at h213
    exact h213
  rw [assembleResult_checks, mkChecks_bending, hZ1]
  have hb : bendFailOf 1 (pyStrOf (pyOr g0 (.str "S235"))) tiers = true := by
    rw [bendFailOf, if_pos (by norm_num : (0 : ℚ) < 1)]
    rw [decide_eq_true_eq, div_one]
    have := sigmaAllow_le_213 (pyStrOf (pyOr g0 (.str "S235")))
    linarith
  rw [hb]
  rfl

/-! ## Concrete evaluations of the engine -/

theorem fy_S235 : fyFromGrade "S235" = 235 := rfl

theorem maxMoment_mid_eval : maxMoment 20 [⟨5000, 10, ""⟩] = 25000 := by
  norm_num [maxMoment, sortedDedup, insertSorted, midList, momentAtX,
    reactionsPL, List.foldl, abs]

theorem maxDefl_mid_eval : maxDefl 20 [⟨5000, 10, ""⟩] 200000 1 = 25 / 6 := by
  rw [maxDefl, if_neg (by norm_num), samplePts_twenty]
  norm_num [deflSum, deflAt, List.foldl, abs]

theorem parse_mid_eval :
    parseTierLoads witSnapMid 20 1 = .ok [⟨5000, 10, ""⟩] := by
  simp [parseTierLoads, resolveTierArr, witSnapMid, pyGetKV, kvFindStr,
    kvFindInt, keyMatchesStr, keyMatchesInt, List.find?, pyOr, pyTruthy,
    parseArr, headIsNum, isNumLike, v3Entry, pyFloatOpt, pyFloat,
    Except.toOption, pyStrOf, bind, Except.bind, pure, Except.pure,
    show toString (1 : ℕ) = "1" from rfl]
  norm_num

theorem tier_mid_eval : tierDatum witSnapMid 20 200000 1 1
    = .ok ⟨2500, 2500, 25000, 25 / 6, 5000⟩ := by
  simp [tierDatum, parse_mid_eval, bind, Except.bind, pure, Except.pure,
    reactionsPL, List.foldl, maxMoment_mid_eval, maxDefl_mid_eval]
  norm_num

/-- `run_checks` on the 20 mm / 5000 N midspan snapshot with an empty
library. -/
theorem runCheckMid_eval : runChecks witSnapMid []
    = .ok (assembleResult witSnapMid 20 (.dict []) (.dict []) (.dict [])
        (.dict []) 1 "S235" [⟨2500, 2500, 25000, 25 / 6, 5000⟩]
        Option.none Option.none 1) := by
  have ht := tier_mid_eval
  simp only [witSnapMid] at ht
  simp [ht, runChecks, witSnapMid, pyGetKV, kvFindStr, kvFindInt,
    keyMatchesStr, keyMatchesInt, List.find?, pyOr, pyTruthy, pyFloat,
    pyInt, ratTrunc, pyDictGet, bind, Except.bind, pure, Except.pure,
    List.mapM, List.mapM.loop, extractCap,
    capacityFromRecord, capGo, capKeys, pyStrOf,
    show List.range 1 = [0] from rfl]

theorem parse_empty_eval :
    parseTierLoads ([] : List (PyVal × PyVal)) 0 1 = .ok [] := rfl

theorem maxMoment_empty_eval : maxMoment 0 [] = 0 := by
  norm_num [maxMoment, sortedDedup, insertSorted, midList, momentAtX,
    List.foldl, abs]

theorem tier_empty_eval : tierDatum ([] : List (PyVal × PyVal)) 0 200000 1 1
    = .ok ⟨0, 0, 0, 0, 0⟩ := by
  simp [tierDatum, parse_empty_eval, bind, Except.bind, pure, Except.pure,
    reactionsPL, List.foldl, maxMoment_empty_eval, maxDefl]

/-- `run_checks` on the empty snapshot and empty library. -/
theorem runCheckEmpty_eval : runChecks [] []
    = .ok (assembleResult [] 0 (.dict []) (.dict []) (.dict [])
        (.dict []) 1 "S235" [⟨0, 0, 0, 0, 0⟩]
        Option.none Option.none 1) := by
  simp [tier_empty_eval, runChecks, pyGetKV, kvFindStr, kvFindInt,
    keyMatchesStr, keyMatchesInt, List.find?, pyOr, pyTruthy, pyFloat,
    pyInt, ratTrunc, pyDictGet, bind, Except.bind, pure, Except.pure,
    List.mapM, List.mapM.loop, extractCap, capacityFromRecord, capGo,
    capKeys, pyStrOf, show List.range 1 = [0] from rfl]

/-- C6 counterexample. With an empty snapshot (no loads) and an empty
library, the profile's `Zxx_mm3` is missing, yet the bending check
reports `PASS` — the substituted default does not make bending fail
when there is no moment, refuting the claim quantified over *every*
snapshot. -/
theorem missing_Zxx_bending_passes_without_load :
    pyDictGet (pyOr (pyGetKV ([] : List (PyVal × PyVal)) "profile")
        (.dict [])) "Zxx_mm3" = .ok PyVal.none
    ∧ (runChecks [] []).toOption.map (fun r => r.checks.bending)
        = some "PASS" := by
  refine ⟨rfl, ?_⟩
  rw [runCheckEmpty_eval]
  simp only [Except.toOption, Option.map]
  rw [assembleResult_checks, mkChecks_bending]
  norm_num [bendFailOf, sigmaAllowOf, fy_S235, totalMOf, List.foldl]

/-- Witness for the amended C6: span 20 mm, 5000 N at midspan, empty
library: `Zxx_mm3` is missing, the total moment is 25000 N·mm > 213,
and the bending check fails. -/
theorem missing_Zxx_fails_bending_under_load_witness :
    (runChecks witSnapMid []).toOption.map (fun r => r.checks.bending)
      = some "FAIL" := by
  cases hr : runChecks witSnapMid [] with
  | error e =>
      have h1 : (runChecks witSnapMid []).isOk = true := by
        rw [runCheckMid_eval]; rfl
      rw [hr] at h1
      simp [Except.isOk, Except.toBool] at h1
  | ok r =>
      have hre : r = assembleResult witSnapMid 20 (.dict []) (.dict [])
          (.dict []) (.dict []) 1 "S235" [⟨2500, 2500, 25000, 25 / 6, 5000⟩]
          Option.none Option.none 1 :=
        (Except.ok.inj (hr.symm.trans runCheckMid_eval))
      have hM : r.max_moment_kNm.getLast? = some ("total", 1 / 40) := by
        rw [hre, assembleResult_moment_last]
        norm_num [totalMOf, List.foldl]
      simp only [hr, Except.toOption, Option.map]
      exact congrArg some
        (missing_Zxx_fails_bending_under_load witSnapMid [] r PyVal.none
          (1 / 40) hr rfl (Or.inl rfl) hM (by norm_num))

/-- Witness for C7 at the midspan snapshot: bending and deflection both
fail and the governing check is `"bending"`. -/
theorem governing_first_fail_priority_witness :
    (runChecks witSnapMid []).toOption.map (fun r => r.governing_check)
      = some "bending" := by
  cases hr : runChecks witSnapMid [] with
  | error e =>
      have h1 : (runChecks witSnapMid []).isOk = true := by
        rw [runCheckMid_eval]; rfl
      rw [hr] at h1
      simp [Except.isOk, Except.toBool] at h1
  | ok r =>
      have hre : r = assembleResult witSnapMid 20 (.dict []) (.dict [])
          (.dict []) (.dict []) 1 "S235" [⟨2500, 2500, 25000, 25 / 6, 5000⟩]
          Option.none Option.none 1 :=
        (Except.ok.inj (hr.symm.trans runCheckMid_eval))
      have hck : r.checks = ⟨"FAIL", "FAIL", "PASS", "PASS"⟩ := by
        rw [hre, assembleResult_checks]
        norm_num [mkChecks, bendFailOf, deflFailOf, capFailOf, sigmaAllowOf,
          fy_S235, totalMOf, totalDOf, deflLimitOf, List.foldl]
      have hg := (governing_first_fail_priority witSnapMid [] r hr).1
      rw [hck] at hg
      simp only [hr, Except.toOption, Option.map]
      simp at hg
      exact congrArg some hg

/-! ## C8: capacity key resolution and the skip-to-PASS rule -/

theorem capacity_first_usable (kvs : List (PyVal × PyVal)) :
    ∀ keys : List String, capGo kvs keys = keys.findSome? (keyUsableCap kvs) := by
  intro keys
  induction keys with
  | nil => rfl
  | cons k rest ih =>
      rw [capGo, List.findSome?]
      cases hk : kvFindStr kvs k with
      | none => simp [keyUsableCap, hk, ih]
      | some v =>
          by_cases hne : isNoneOrEmpty v
          · simp [keyUsableCap, hk, hne, ih]
          · cases hf : pyFloat v with
            | ok q => simp [keyUsableCap, hk, hne, hf, Except.toOption]
            | error e => simp [keyUsableCap, hk, hne, hf, Except.toOption, ih]

/-- C8 amended. The rod/anchor capacity is the value of the *first
usable* key in the ordered list — present, not `None`, not the empty
string, and convertible by `float` — and when no key yields a capacity
the corresponding check is skipped and reported `PASS` regardless of
the demand. -/
theorem capacity_key_order_and_skip (snap lib : List (PyVal × PyVal))
    (r : CheckResult) (h : runChecks snap lib = .ok r) :
    (∀ kvs : List (PyVal × PyVal),
        capacityFromRecord kvs = capKeys.findSome? (keyUsableCap kvs))
    ∧ (extractCap (pyOr (pyGetKV lib "rod") (.dict [])) = .ok Option.none →
        r.checks.rod = "PASS")
    ∧ (extractCap (pyOr (pyGetKV lib "anchor") (.dict []))
          = .ok Option.none →
        r.checks.anchor = "PASS") := by
  obtain ⟨span, tc0, e0, i0, z0, g0, E, Ixx, Zxx, tiers, rodCap, anchorCap,
    bam, _, _, _, _, _, _, _, _, _, _, hrc, hac, _, hr⟩ :=
    runChecks_ok_inv snap lib r h
  subst hr
  refine ⟨fun kvs => capacity_first_usable kvs capKeys, ?_, ?_⟩
  · intro hnone
    have hcap : rodCap = Option.none := Except.ok.inj (hrc.symm.trans hnone)
    rw [assembleResult_checks, mkChecks_rod, hcap]
    rfl
  · intro hnone
    have hcap : anchorCap = Option.none := Except.ok.inj (hac.symm.trans hnone)
    rw [assembleResult_checks, mkChecks_anchor, hcap]
    rfl

/-- C8 counterexample. In `{"tension_capacity_N": None, "capacity_N":
100}` the first *present* key is `tension_capacity_N`, but its `None`
value yields no capacity (`float(None)` raises); the engine instead
uses the second key's 100 N — so "first present key wins" is false as
stated. -/
theorem capacity_not_first_present_key :
    specFirstPresentCapacityKey cexRodRecord = some "tension_capacity_N"
    ∧ pyGetKV cexRodRecord "tension_capacity_N" = PyVal.none
    ∧ pyFloat PyVal.none = .error "TypeError"
    ∧ capacityFromRecord cexRodRecord = some 100 :=
  ⟨rfl, rfl, rfl, rfl⟩

/-- Witness for the amended C8 on the empty library: no capacity key is
present, so the rod check is skipped and reported `PASS`. -/
theorem capacity_key_order_and_skip_witness :
    (runChecks [] []).toOption.map (fun r => r.checks.rod) = some "PASS" := by
  cases hr : runChecks ([] : List (PyVal × PyVal)) [] with
  | error e =>
      have h1 : (runChecks ([] : List (PyVal × PyVal)) []).isOk = true := by
        rw [runCheckEmpty_eval]; rfl
      rw [hr] at h1
      simp [Except.isOk, Except.toBool] at h1
  | ok r =>
      simp only [hr, Except.toOption, Option.map]
      exact congrArg some ((capacity_key_order_and_skip [] [] r hr).2.1 rfl)
